import Mathlib

/-!
Verification of the landing-page report pipeline (`landing_page_report_v2.py`).

The pipeline is embedded shallowly: tables are lists of records, pandas
operations become pure list functions, numeric columns that may be missing
(NaN) are `Option ℚ`, and the one stateful code path (in-place column
mutation inside `generate_markdown`) is modelled by explicit state passing
over a heap of tables.
-/

namespace LandingPage

/-- The official program order (`PROGRAM_ORDER` in the source). -/
def PROGRAM_ORDER : List String :=
  ["Informatics", "CyberOps", "CyberEng", "MED", "LEPSL",
   "Data Science", "MSAAI", "MSLDT", "MTS", "MESH",
   "MSHA", "MSNP", "EML", "MSITL", "MSNNL"]

/-- Program display names mapping (`PROGRAM_NAMES` in the source). -/
def PROGRAM_NAMES : List (String × String) :=
  [("Informatics", "Health Care Informatics"),
   ("CyberOps", "Cyber Security Operations and Leadership"),
   ("CyberEng", "Cyber Security Engineering"),
   ("MED", "Education"),
   ("LEPSL", "Law Enforcement and Public Safety Leadership"),
   ("Data Science", "Applied Data Science"),
   ("MSAAI", "Applied Artificial Intelligence"),
   ("MSLDT", "Learning Design and Technology"),
   ("MTS", "Theological Studies"),
   ("MESH", "Engineering for Sustainability & Health"),
   ("MSHA", "Humanitarian Action"),
   ("MSNP", "Nonprofit Leadership & Management"),
   ("EML", "Engineering Management and Leadership"),
   ("MSITL", "Information Technology Leadership"),
   ("MSNNL", "MSN Nursing Leadership")]

/-- Display-name lookup, `PROGRAM_NAMES.get(program, program)`: find the name,
falling back to the program code itself. -/
def displayName (p : String) : String :=
  ((PROGRAM_NAMES.find? (fun q => q.1 = p)).map (fun q => q.2)).getD p

/-! ### Top-N Ranker (`get_top_pages`)

`get_top_pages` runs `data.groupby(group_cols).apply(lambda x: x.nlargest(top_n, metric))`
then flattens the grouped result back into a plain table.  We embed it
generically: rows of type `α`, the grouping columns as a key function
`key : α → κ`, the metric column as `metric : α → ℚ`.  `groupby` collects
the distinct keys in sorted order (pandas `sort=True` default) and
`nlargest` takes the first `top_n` rows of the stable descending sort of
each group (pandas `keep='first'`). -/

/-- The descending order on the metric used by `nlargest`. -/
def metricGE {α : Type} (metric : α → ℚ) (a b : α) : Prop :=
  metric b ≤ metric a

instance {α : Type} (metric : α → ℚ) : DecidableRel (metricGE metric) :=
  fun a b => inferInstanceAs (Decidable (metric b ≤ metric a))

/-- Embedding of `DataFrame.nlargest(n, metric)`: stable sort descending by the metric,
then keep the first `n` rows (`keep='first'`). -/
def nlargest {α : Type} (n : ℕ) (metric : α → ℚ) (xs : List α) : List α :=
  (List.insertionSort (metricGE metric) xs).take n

/-- The Top-N Ranker `get_top_pages`: group by `key` (groups in sorted key order), apply
`nlargest`, and concatenate the per-group results. -/
def get_top_pages {α κ : Type} [LinearOrder κ] (key : α → κ) (metric : α → ℚ)
    (top_n : ℕ) (xs : List α) : List α :=
  (List.insertionSort (fun a b => a ≤ b) ((xs.map key).dedup)).flatMap
    (fun g => nlargest top_n metric (xs.filter (fun r => decide (key r = g))))

/-! ### Data model

Rows of the ranked month-over-month table, of the ranked year-over-year
table, and of the merged summary table.  Numeric values are rationals.
In the summary table every numeric column may be missing (NaN after the
outer join), hence `Option ℚ`; the program column may also be missing
(NaN) after the categorical conversion in `sort_by_program_order`, hence
`Option String`. -/

/-- A row of the ranked month-over-month table. -/
structure MomRow where
  program_category : String
  default_channel : String
  Landing_page : String
  Session : ℚ
  Conversions : ℚ
  sessions_mom_difference : ℚ
  conversions_mom_difference : ℚ
  conversion_rate_mom_percent_difference : ℚ
deriving DecidableEq, Repr

/-- A row of the ranked year-over-year table. -/
structure YoyRow where
  program_category : String
  default_channel : String
  Landing_page : String
  Session : ℚ
  Conversions : ℚ
  sessions_yoy_difference : ℚ
  conversions_yoy_difference : ℚ
  conversion_rate_yoy_percent_difference : ℚ
deriving DecidableEq, Repr

/-- A row of the summary table produced by the outer merge. -/
structure SRow where
  program_category : Option String
  default_channel : String
  Landing_page : String
  Session_mom : Option ℚ
  Session_yoy : Option ℚ
  sessions_mom_difference : Option ℚ
  sessions_yoy_difference : Option ℚ
  Conversions_mom : Option ℚ
  Conversions_yoy : Option ℚ
  conversions_mom_difference : Option ℚ
  conversions_yoy_difference : Option ℚ
  conversion_rate_mom_percent_difference : Option ℚ
  conversion_rate_yoy_percent_difference : Option ℚ
deriving DecidableEq, Repr

/-- The join key of a month-over-month row. -/
def MomRow.key (m : MomRow) : String × String × String :=
  (m.program_category, m.default_channel, m.Landing_page)

/-- The join key of a year-over-year row. -/
def YoyRow.key (y : YoyRow) : String × String × String :=
  (y.program_category, y.default_channel, y.Landing_page)

/-- Summary row built from a matched pair of rows. -/
def SRow.ofBoth (m : MomRow) (y : YoyRow) : SRow where
  program_category := some m.program_category
  default_channel := m.default_channel
  Landing_page := m.Landing_page
  Session_mom := some m.Session
  Session_yoy := some y.Session
  sessions_mom_difference := some m.sessions_mom_difference
  sessions_yoy_difference := some y.sessions_yoy_difference
  Conversions_mom := some m.Conversions
  Conversions_yoy := some y.Conversions
  conversions_mom_difference := some m.conversions_mom_difference
  conversions_yoy_difference := some y.conversions_yoy_difference
  conversion_rate_mom_percent_difference := some m.conversion_rate_mom_percent_difference
  conversion_rate_yoy_percent_difference := some y.conversion_rate_yoy_percent_difference

/-- Summary row for a month-over-month row with no partner: the
year-over-year columns are missing (NaN). -/
def SRow.ofMom (m : MomRow) : SRow where
  program_category := some m.program_category
  default_channel := m.default_channel
  Landing_page := m.Landing_page
  Session_mom := some m.Session
  Session_yoy := none
  sessions_mom_difference := some m.sessions_mom_difference
  sessions_yoy_difference := none
  Conversions_mom := some m.Conversions
  Conversions_yoy := none
  conversions_mom_difference := some m.conversions_mom_difference
  conversions_yoy_difference := none
  conversion_rate_mom_percent_difference := some m.conversion_rate_mom_percent_difference
  conversion_rate_yoy_percent_difference := none

/-- Summary row for a year-over-year row with no partner: the
month-over-month columns are missing (NaN). -/
def SRow.ofYoy (y : YoyRow) : SRow where
  program_category := some y.program_category
  default_channel := y.default_channel
  Landing_page := y.Landing_page
  Session_mom := none
  Session_yoy := some y.Session
  sessions_mom_difference := none
  sessions_yoy_difference := some y.sessions_yoy_difference
  Conversions_mom := none
  Conversions_yoy := some y.Conversions
  conversions_mom_difference := none
  conversions_yoy_difference := some y.conversions_yoy_difference
  conversion_rate_mom_percent_difference := none
  conversion_rate_yoy_percent_difference := some y.conversion_rate_yoy_percent_difference

/-- The outer join `pd.merge(mom_data, yoy_data, on=[...], how='outer', suffixes=('_mom','_yoy'))`:
every left row paired with each right row sharing its key (alone if none
matches), followed by the unmatched right rows. -/
def outerMerge (mom_data : List MomRow) (yoy_data : List YoyRow) : List SRow :=
  (mom_data.flatMap (fun m =>
    match yoy_data.filter (fun y => decide (y.key = m.key)) with
    | [] => [SRow.ofMom m]
    | ys => ys.map (fun y => SRow.ofBoth m y))) ++
  ((yoy_data.filter (fun y => decide (¬ mom_data.any (fun m => decide (m.key = y.key))))).map
    (fun y => SRow.ofYoy y))

/-- Zero-filling, `summary.fillna(...)`: replace a missing value by `0` in each of the
ten designated numeric columns. -/
def fillna (s : SRow) : SRow :=
  { s with
    Session_mom := some (s.Session_mom.getD 0)
    Session_yoy := some (s.Session_yoy.getD 0)
    sessions_mom_difference := some (s.sessions_mom_difference.getD 0)
    sessions_yoy_difference := some (s.sessions_yoy_difference.getD 0)
    Conversions_mom := some (s.Conversions_mom.getD 0)
    Conversions_yoy := some (s.Conversions_yoy.getD 0)
    conversions_mom_difference := some (s.conversions_mom_difference.getD 0)
    conversions_yoy_difference := some (s.conversions_yoy_difference.getD 0)
    conversion_rate_mom_percent_difference :=
      some (s.conversion_rate_mom_percent_difference.getD 0)
    conversion_rate_yoy_percent_difference :=
      some (s.conversion_rate_yoy_percent_difference.getD 0) }

/-! ### Canonical sort (`sort_by_program_order`) -/

/-- Categorical conversion, `pd.Categorical(col, categories=PROGRAM_ORDER)`: values outside the
category list become missing (NaN); missing stays missing. -/
def catProgram (p : Option String) : Option String :=
  p.bind (fun q => if q ∈ PROGRAM_ORDER then some q else none)

/-- Sort position of a (categorical) program value: its index in
`PROGRAM_ORDER`; a missing value sorts after every category
(`na_position='last'`). -/
def progPos (p : Option String) : ℕ :=
  match p with
  | some q => PROGRAM_ORDER.indexOf q
  | none => PROGRAM_ORDER.length

/-- The comparison used by `sort_values(['program_category', 'default_channel'])`:
program position first, then channel alphabetically. -/
def sortLE (a b : SRow) : Prop :=
  progPos a.program_category < progPos b.program_category ∨
    (progPos a.program_category = progPos b.program_category ∧
      a.default_channel ≤ b.default_channel)

instance : DecidableRel sortLE :=
  fun a b =>
    inferInstanceAs (Decidable (progPos a.program_category < progPos b.program_category ∨
      (progPos a.program_category = progPos b.program_category ∧
        a.default_channel ≤ b.default_channel)))

/-- A summary row after the categorical conversion of its program column. -/
def catRow (r : SRow) : SRow :=
  { r with program_category := catProgram r.program_category }

/-- The canonical sort `sort_by_program_order`: convert the program column to a categorical
(in place in the source), then stably sort by program position and channel. -/
def sort_by_program_order (data : List SRow) : List SRow :=
  List.insertionSort sortLE (data.map catRow)

/-- The Summarizer `summarize_data`: outer-merge the two ranked tables, zero-fill the ten
numeric columns, and apply the canonical sort. -/
def summarize_data (mom_data : List MomRow) (yoy_data : List YoyRow) : List SRow :=
  sort_by_program_order ((outerMerge mom_data yoy_data).map fillna)

/-! ### Report writer (`generate_markdown`)

The writer drops low-traffic rows, re-applies the canonical sort, then
emits one section per program of `PROGRAM_ORDER` that still has rows,
with one block per channel (channels in first-appearance order, rows by
descending month-over-month sessions).  We embed the emitted report both
structurally (`sections`) and as the list of text lines
(`generate_markdown`). -/

/-- The low-traffic filter `data['Session_mom'] > 20`; a missing value
(NaN) compares as false. -/
def lowPass (r : SRow) : Bool :=
  match r.Session_mom with
  | some v => decide (20 < v)
  | none => false

/-- The rows that survive the low-traffic filter and the re-sort, in
report order. -/
def survivors (data : List SRow) : List SRow :=
  sort_by_program_order (data.filter lowPass)

/-- Embedding of `Series.unique()`: the distinct values in first-appearance order. -/
def uniqueFirst (l : List String) : List String :=
  l.foldl (fun acc x => if x ∈ acc then acc else acc ++ [x]) []

/-- One channel's rows inside a program section, sorted by descending
month-over-month sessions (`sort_values('Session_mom', ascending=False)`). -/
def channelRows (pd : List SRow) (ch : String) : List SRow :=
  List.insertionSort (metricGE (fun r => r.Session_mom.getD 0))
    (pd.filter (fun r => decide (r.default_channel = ch)))

/-- A channel block of the report. -/
structure ChannelBlock where
  channel : String
  rows : List SRow
deriving DecidableEq, Repr

/-- A program section of the report. -/
structure ProgramSection where
  program : String
  display : String
  channels : List ChannelBlock
deriving DecidableEq, Repr

/-- The program sections built from an already filtered and sorted frame
`d`: one section per program of `PROGRAM_ORDER` whose rows in `d` are
nonempty. -/
def sectionsOf (d : List SRow) : List ProgramSection :=
  PROGRAM_ORDER.filterMap (fun p =>
    if (d.filter (fun r => decide (r.program_category = some p))).isEmpty then none
    else some
      ⟨p, displayName p,
        (uniqueFirst ((d.filter (fun r => decide (r.program_category = some p))).map
            (fun r => r.default_channel))).map
          (fun ch => ⟨ch, channelRows (d.filter (fun r => decide (r.program_category = some p))) ch⟩)⟩)

/-- The program sections of the report, in `PROGRAM_ORDER` order, skipping
programs with no surviving rows. -/
def sections (data : List SRow) : List ProgramSection :=
  sectionsOf (survivors data)

/-- All rows emitted in the report, in emission order. -/
def emittedRows (data : List SRow) : List SRow :=
  (sections data).flatMap (fun sec => sec.channels.flatMap (fun cb => cb.rows))

/-- The values computed for one bullet line (source lines 144-168). -/
structure Bullet where
  page : String
  sessions_mom : ℚ
  sessions_mom_diff : ℚ
  sessions_yoy_diff : ℚ
  conv_mom : ℚ
  conv_mom_diff : ℚ
  conv_yoy_diff : ℚ
  prev_conv_mom : ℚ
  prev_conv_yoy : ℚ
  conv_pct_change_mom : ℚ
  conv_pct_change_yoy : ℚ
deriving DecidableEq, Repr

/-- The per-row computation of `generate_markdown`: read each numeric
field (defaulting a missing one to `0`), derive the previous-period
conversion baselines, and compute the two percent changes with the
division-by-zero guard. -/
def rowBullet (r : SRow) : Bullet :=
  let sessions_mom := r.Session_mom.getD 0
  let sessions_mom_diff := r.sessions_mom_difference.getD 0
  let sessions_yoy_diff := r.sessions_yoy_difference.getD 0
  let conv_mom := r.Conversions_mom.getD 0
  let conv_mom_diff := r.conversions_mom_difference.getD 0
  let conv_yoy_diff := r.conversions_yoy_difference.getD 0
  let prev_conv_mom := conv_mom - conv_mom_diff
  let prev_conv_yoy := conv_mom - conv_yoy_diff
  let conv_pct_change_mom : ℚ :=
    if prev_conv_mom ≠ 0 then conv_mom_diff / prev_conv_mom * 100
    else if conv_mom_diff > 0 then 100 else 0
  let conv_pct_change_yoy : ℚ :=
    if prev_conv_yoy ≠ 0 then conv_yoy_diff / prev_conv_yoy * 100
    else if conv_yoy_diff > 0 then 100 else 0
  ⟨r.Landing_page, sessions_mom, sessions_mom_diff, sessions_yoy_diff,
   conv_mom, conv_mom_diff, conv_yoy_diff, prev_conv_mom, prev_conv_yoy,
   conv_pct_change_mom, conv_pct_change_yoy⟩

/-- Rounding to an integer as Python's `f"{x:.0f}"` does (half to even). -/
def roundHalfEven (q : ℚ) : ℤ :=
  if Int.fract q < 1/2 then ⌊q⌋
  else if 1/2 < Int.fract q then ⌊q⌋ + 1
  else if ⌊q⌋ % 2 = 0 then ⌊q⌋ else ⌊q⌋ + 1

/-- Decimal formatting, Python's "%.0f". -/
def fmt0 (q : ℚ) : String :=
  toString (roundHalfEven q)

/-- `f"+{x:.0f}" if x >= 0 else f"{x:.0f}"`. -/
def fmtSigned (q : ℚ) : String :=
  if 0 ≤ q then "+" ++ fmt0 q else fmt0 q

/-- The text of one bullet line; the conversions clause appears only when
the current conversions are positive. -/
def bulletLine (r : SRow) : String :=
  let b := rowBullet r
  let base := "* \"" ++ b.page ++ "\": " ++ fmt0 b.sessions_mom ++ " sessions " ++
    "(YoY: " ++ fmtSigned b.sessions_yoy_diff ++ " | MoM: " ++
    fmtSigned b.sessions_mom_diff ++ ")"
  if b.conv_mom > 0 then
    base ++ " Conversions: " ++ fmt0 b.conv_mom ++ " (YoY: " ++
      fmtSigned b.conv_yoy_diff ++ ", " ++ fmtSigned b.conv_pct_change_yoy ++ "% | " ++
      "MoM: " ++ fmtSigned b.conv_mom_diff ++ ", " ++ fmtSigned b.conv_pct_change_mom ++ "%)"
  else base

/-- The text lines of one program section. -/
def sectionLines (sec : ProgramSection) : List String :=
  ["## **" ++ sec.display ++ "**", "", "### **Landing Page Report**", ""] ++
  sec.channels.flatMap
    (fun cb => ["#### **" ++ cb.channel ++ "**", ""] ++ cb.rows.map bulletLine ++ [""]) ++
  [""]

/-- The full report, as the list of text lines written to the output file. -/
def generate_markdown (data : List SRow) : List String :=
  (sections data).flatMap sectionLines

/-! ### State-passing model of the writer's in-place effects

`generate_markdown` receives a reference to the caller's DataFrame.  Its
first step `data[data['Session_mom'] > 20].copy()` allocates a fresh
frame; `sort_by_program_order` then mutates that frame's program column
in place (`data['program_category'] = pd.Categorical(...)`) before
`sort_values(...).reset_index()` allocates the sorted result.  We model
frames as entries of a store and references as indices into it. -/

/-- A store of allocated DataFrames. -/
structure Store where
  tables : List (List SRow)
deriving Repr

/-- Read the frame a reference points to. -/
def Store.read (s : Store) (i : ℕ) : List SRow :=
  s.tables.getD i []

/-- Allocate a fresh frame, returning the new store and its reference. -/
def Store.alloc (s : Store) (t : List SRow) : Store × ℕ :=
  (⟨s.tables ++ [t]⟩, s.tables.length)

/-- Overwrite the frame a reference points to (an in-place mutation). -/
def Store.write (s : Store) (i : ℕ) (t : List SRow) : Store :=
  ⟨s.tables.set i t⟩

/-- `sort_by_program_order` as it executes: mutate the argument frame's
program column in place, then allocate the sorted copy and return a
reference to it. -/
def sort_by_program_order_st (s : Store) (i : ℕ) : Store × ℕ :=
  let t := s.read i
  let s1 := s.write i (t.map catRow)
  s1.alloc (List.insertionSort sortLE (s1.read i))

/-- `generate_markdown` as it executes: filter into a fresh copy, run the
in-place sort on the copy, and render the report from the sorted frame.
Returns the final store and the report lines. -/
def generate_markdown_st (s : Store) (i : ℕ) : Store × List String :=
  let fc := Store.alloc s ((s.read i).filter lowPass)
  let so := sort_by_program_order_st fc.1 fc.2
  (so.1, (sectionsOf (so.1.read so.2)).flatMap sectionLines)

/-! ### Projections of a summary row back onto its sources -/

/-- Recover the month-over-month source row of a merged row, when its
month-over-month columns are all present. -/
def momSide (s : SRow) : Option MomRow :=
  match s.program_category, s.Session_mom, s.Conversions_mom,
      s.sessions_mom_difference, s.conversions_mom_difference,
      s.conversion_rate_mom_percent_difference with
  | some p, some a, some b, some c, some d, some e =>
      some ⟨p, s.default_channel, s.Landing_page, a, b, c, d, e⟩
  | _, _, _, _, _, _ => none

/-- Recover the year-over-year source row of a merged row, when its
year-over-year columns are all present. -/
def yoySide (s : SRow) : Option YoyRow :=
  match s.program_category, s.Session_yoy, s.Conversions_yoy,
      s.sessions_yoy_difference, s.conversions_yoy_difference,
      s.conversion_rate_yoy_percent_difference with
  | some p, some a, some b, some c, some d, some e =>
      some ⟨p, s.default_channel, s.Landing_page, a, b, c, d, e⟩
  | _, _, _, _, _, _ => none

/-- The single merged row of a month-over-month row, when join keys are
unique on the year-over-year side. -/
def mergedOf (yoy_data : List YoyRow) (m : MomRow) : SRow :=
  match yoy_data.filter (fun y => decide (y.key = m.key)) with
  | [] => SRow.ofMom m
  | y :: _ => SRow.ofBoth m y

instance {α : Type} (metric : α → ℚ) : IsTotal α (metricGE metric) :=
  ⟨fun a b => le_total (metric b) (metric a)⟩

instance {α : Type} (metric : α → ℚ) : IsTrans α (metricGE metric) :=
  ⟨fun _ _ _ hab hbc => le_trans hbc hab⟩

instance : IsTotal SRow sortLE := by
  constructor
  intro a b
  rcases Nat.lt_trichotomy (progPos a.program_category) (progPos b.program_category) with h | h | h
  · exact Or.inl (Or.inl h)
  · rcases le_total a.default_channel b.default_channel with hc | hc
    · exact Or.inl (Or.inr ⟨h, hc⟩)
    · exact Or.inr (Or.inr ⟨h.symm, hc⟩)
  · exact Or.inr (Or.inl h)

instance : IsTrans SRow sortLE := by
  constructor
  intro a b c hab hbc
  rcases hab with h1 | ⟨h1, hc1⟩
  · rcases hbc with h2 | ⟨h2, -⟩
    · exact Or.inl (h1.trans h2)
    · exact Or.inl (h2 ▸ h1)
  · rcases hbc with h2 | ⟨h2, hc2⟩
    · exact Or.inl (h1 ▸ h2)
    · exact Or.inr ⟨h1.trans h2, hc1.trans hc2⟩

/-! ### Concrete fixtures used by the witness theorems -/

/-- A month-over-month row for an enumerated program. -/
def momA : MomRow :=
  ⟨"Informatics", "Organic Search", "/home", 50, 10, 5, 2, 1⟩

/-- Its matching year-over-year row. -/
def yoyA : YoyRow :=
  ⟨"Informatics", "Organic Search", "/home", 47, 9, -3, -1, 2⟩

/-- An unmatched month-over-month row. -/
def momB : MomRow :=
  ⟨"CyberOps", "Paid Search", "/cyber", 30, 0, 4, 0, 0⟩

/-- An unmatched year-over-year row. -/
def yoyC : YoyRow :=
  ⟨"MED", "Paid Social", "/med", 25, 2, 1, 1, 1⟩

/-- A month-over-month row whose program is outside `PROGRAM_ORDER`. -/
def momZ : MomRow :=
  ⟨"Zeta", "Organic Search", "/p", 100, 1, 1, 1, 1⟩

/-- A fully populated summary row for an enumerated program. -/
def srowA : SRow :=
  ⟨some "Informatics", "Organic Search", "/home", some 50, some 47, some 5,
   some (-3), some 10, some 9, some 2, some (-1), some 1, some 2⟩

/-- The summary row produced for `momA` when it has no partner. -/
def srowM : SRow :=
  catRow (fillna (SRow.ofMom momA))

/-- The report section produced for the table `[srowA]`. -/
def secA : ProgramSection :=
  ⟨"Informatics", "Health Care Informatics", [⟨"Organic Search", [srowA]⟩]⟩

/-- Key-grouped pairs used to exercise the generic Top-N Ranker. -/
def pairsX : List (ℕ × ℚ) :=
  [(0, 5), (0, 7)]

/-- A one-frame store. -/
def storeA : Store :=
  ⟨[[srowA]]⟩

/-! ## Membership lemmas for the pipeline stages -/

theorem mem_sort_by_program_order_iff {r : SRow} {l : List SRow} :
    r ∈ sort_by_program_order l ↔ ∃ r0 ∈ l, catRow r0 = r := by
  simp [sort_by_program_order, List.mem_insertionSort, List.mem_map]

theorem mem_summarize_iff {r : SRow} {mom_data : List MomRow} {yoy_data : List YoyRow} :
    r ∈ summarize_data mom_data yoy_data ↔
      ∃ s ∈ outerMerge mom_data yoy_data, catRow (fillna s) = r := by
  simp [summarize_data, mem_sort_by_program_order_iff, List.mem_map]

theorem mem_survivors_iff {r : SRow} {data : List SRow} :
    r ∈ survivors data ↔ ∃ r0, r0 ∈ data ∧ lowPass r0 = true ∧ catRow r0 = r := by
  simp only [survivors, mem_sort_by_program_order_iff, List.mem_filter]
  tauto

theorem emitted_subset_survivors {data : List SRow} {r : SRow}
    (h : r ∈ emittedRows data) : r ∈ survivors data := by
  simp only [emittedRows, List.mem_flatMap] at h
  obtain ⟨sec, hsec, cb, hcb, hr⟩ := h
  simp only [sections, sectionsOf, List.mem_filterMap] at hsec
  obtain ⟨p, -, hfp⟩ := hsec
  split at hfp
  · exact absurd hfp (by simp)
  · obtain rfl := Option.some.inj hfp
    obtain ⟨ch, -, rfl⟩ := List.mem_map.mp hcb
    have h1 := (List.mem_insertionSort _).mp hr
    have h2 := (List.mem_filter.mp h1).1
    exact (List.mem_filter.mp h2).1

/-! ## C2: after summarization no designated numeric field is missing -/

/-- C2: for every pair of ranked input tables, every row of the summary
table returned by `summarize_data` has all ten designated numeric fields
present (the outer join's missing sides are zero-filled). -/
theorem summarize_data_no_missing (mom_data : List MomRow) (yoy_data : List YoyRow) :
    ∀ r ∈ summarize_data mom_data yoy_data,
      r.Session_mom.isSome ∧ r.Session_yoy.isSome ∧
      r.sessions_mom_difference.isSome ∧ r.sessions_yoy_difference.isSome ∧
      r.Conversions_mom.isSome ∧ r.Conversions_yoy.isSome ∧
      r.conversions_mom_difference.isSome ∧ r.conversions_yoy_difference.isSome ∧
      r.conversion_rate_mom_percent_difference.isSome ∧
      r.conversion_rate_yoy_percent_difference.isSome := by
  intro r hr
  obtain ⟨s, -, rfl⟩ := mem_summarize_iff.mp hr
  simp [catRow, fillna]

/-- Witness for C2 at a concrete input. -/
theorem summarize_data_no_missing_witness :
    srowA ∈ summarize_data [momA] [yoyA] ∧ srowA.Session_mom.isSome := by
  refine ⟨by decide, ?_⟩
  exact (summarize_data_no_missing [momA] [yoyA] srowA (by decide)).1

/-! ## C5: the low-traffic filter -/

/-- C5: for every summary table, every row emitted in the final report has
a month-over-month session count strictly greater than 20; rows with
`Session_mom ≤ 20` (or missing) never appear. -/
theorem report_no_low_traffic (data : List SRow) :
    ∀ r ∈ emittedRows data, ∃ v, r.Session_mom = some v ∧ 20 < v := by
  intro r hr
  obtain ⟨r0, -, hlp, rfl⟩ := mem_survivors_iff.mp (emitted_subset_survivors hr)
  cases hS : r0.Session_mom with
  | none => rw [lowPass, hS] at hlp; cases hlp
  | some v =>
    rw [lowPass, hS, decide_eq_true_eq] at hlp
    exact ⟨v, by simp [catRow, hS], hlp⟩

/-- Witness for C5 at a concrete input. -/
theorem report_no_low_traffic_witness :
    srowA ∈ emittedRows [srowA] ∧ ∃ v, srowA.Session_mom = some v ∧ 20 < v :=
  ⟨by decide, report_no_low_traffic [srowA] srowA (by decide)⟩

/-! ## C6: percent-change convention and division-by-zero guard -/

/-- C6: for every emitted row, each conversions percent change equals
`difference / previous * 100` when the previous-period value is nonzero,
and when the previous-period value is zero it equals `100` for a positive
difference and `0` otherwise — so the division is always guarded. -/
theorem conv_pct_change_spec (data : List SRow) :
    ∀ r ∈ emittedRows data,
      ((rowBullet r).prev_conv_mom ≠ 0 →
        (rowBullet r).conv_pct_change_mom =
          (rowBullet r).conv_mom_diff / (rowBullet r).prev_conv_mom * 100) ∧
      ((rowBullet r).prev_conv_mom = 0 →
        (rowBullet r).conv_pct_change_mom =
          if 0 < (rowBullet r).conv_mom_diff then 100 else 0) ∧
      ((rowBullet r).prev_conv_yoy ≠ 0 →
        (rowBullet r).conv_pct_change_yoy =
          (rowBullet r).conv_yoy_diff / (rowBullet r).prev_conv_yoy * 100) ∧
      ((rowBullet r).prev_conv_yoy = 0 →
        (rowBullet r).conv_pct_change_yoy =
          if 0 < (rowBullet r).conv_yoy_diff then 100 else 0) := by
  intro r _
  simp only [rowBullet]
  refine ⟨fun h => ?_, fun h => ?_, fun h => ?_, fun h => ?_⟩
  · rw [if_pos h]
  · rw [if_neg (not_not_intro h)]
  · rw [if_pos h]
  · rw [if_neg (not_not_intro h)]

/-- Witness for C6 at a concrete input. -/
theorem conv_pct_change_spec_witness :
    srowA ∈ emittedRows [srowA] ∧
      ((rowBullet srowA).prev_conv_mom ≠ 0 →
        (rowBullet srowA).conv_pct_change_mom =
          (rowBullet srowA).conv_mom_diff / (rowBullet srowA).prev_conv_mom * 100) :=
  ⟨by decide, (conv_pct_change_spec [srowA] srowA (by decide)).1⟩

/-! ## C7: the previous-period conversion baselines -/

/-- C7: for every emitted row, the month-over-month baseline is the current
month-over-month conversions minus the month-over-month difference, and the
year-over-year baseline subtracts the year-over-year difference from the
same `Conversions_mom` value. -/
theorem conv_baselines_spec (data : List SRow) :
    ∀ r ∈ emittedRows data,
      (rowBullet r).prev_conv_mom =
        (rowBullet r).conv_mom - (rowBullet r).conv_mom_diff ∧
      (rowBullet r).prev_conv_yoy =
        (rowBullet r).conv_mom - (rowBullet r).conv_yoy_diff ∧
      (rowBullet r).conv_mom = r.Conversions_mom.getD 0 ∧
      (rowBullet r).conv_mom_diff = r.conversions_mom_difference.getD 0 ∧
      (rowBullet r).conv_yoy_diff = r.conversions_yoy_difference.getD 0 := by
  intro r _
  exact ⟨rfl, rfl, rfl, rfl, rfl⟩

/-- Witness for C7 at a concrete input. -/
theorem conv_baselines_spec_witness :
    srowA ∈ emittedRows [srowA] ∧
      (rowBullet srowA).prev_conv_yoy =
        (rowBullet srowA).conv_mom - (rowBullet srowA).conv_yoy_diff :=
  ⟨by decide, (conv_baselines_spec [srowA] srowA (by decide)).2.1⟩

/-! ## C3: what the canonical sort does with out-of-enumeration programs

`pd.Categorical(col, categories=PROGRAM_ORDER)` turns an unknown program
into a missing value, and `sort_values` places missing keys last
(`na_position='last'`) — it does not drop the row.  The claim that such
rows are dropped is therefore false; the corrected statement follows. -/

/-- Counterexample to C3 as stated: a summary built from a row whose
program is `"Zeta"` (not in the enumeration) still contains a row whose
program category is outside the enumeration. -/
theorem summarize_data_keeps_unknown_program :
    ¬ (∀ r ∈ summarize_data [momZ] [],
        ∃ p, r.program_category = some p ∧ p ∈ PROGRAM_ORDER) := by
  decide

/-- C3 (amended): the summary drops no row — its row count equals the
outer join's; a row's program is either an enumerated program or has been
made missing by the categorical conversion; and the summary is ordered by
program position in the enumeration, then channel, with missing programs
after every enumerated one (`sortLE`). -/
theorem summarize_data_sort_spec (mom_data : List MomRow) (yoy_data : List YoyRow) :
    (summarize_data mom_data yoy_data).length = (outerMerge mom_data yoy_data).length ∧
    (∀ r ∈ summarize_data mom_data yoy_data,
      (∃ p, r.program_category = some p ∧ p ∈ PROGRAM_ORDER) ∨
        r.program_category = none) ∧
    (summarize_data mom_data yoy_data).Sorted sortLE := by
  refine ⟨?_, ?_, ?_⟩
  · simp [summarize_data, sort_by_program_order, List.length_insertionSort]
  · intro r hr
    obtain ⟨s, -, rfl⟩ := mem_summarize_iff.mp hr
    cases hq : (fillna s).program_category with
    | none => exact Or.inr (by simp [catRow, catProgram, hq])
    | some q =>
      by_cases hmem : q ∈ PROGRAM_ORDER
      · exact Or.inl ⟨q, by simp [catRow, catProgram, hq, hmem], hmem⟩
      · exact Or.inr (by simp [catRow, catProgram, hq, hmem])
  · exact List.sorted_insertionSort sortLE _

/-- Witness for the amended C3 at a concrete input. -/
theorem summarize_data_sort_spec_witness :
    catRow (fillna (SRow.ofMom momZ)) ∈ summarize_data [momZ] [] ∧
      ((∃ p, (catRow (fillna (SRow.ofMom momZ))).program_category = some p ∧
          p ∈ PROGRAM_ORDER) ∨
        (catRow (fillna (SRow.ofMom momZ))).program_category = none) :=
  ⟨by decide, (summarize_data_sort_spec [momZ] []).2.1 _ (by decide)⟩

/-! ## C4: report sections follow the fixed program enumeration -/

theorem map_filterMap_sublist {α β : Type} (f : α → Option β) (g : β → α)
    (h : ∀ a b, f a = some b → g b = a) :
    ∀ l : List α, ((l.filterMap f).map g).Sublist l := by
  intro l
  induction l with
  | nil => simp
  | cons a t ih =>
    rw [List.filterMap_cons]
    cases hfa : f a with
    | none => exact ih.cons a
    | some b => rw [List.map_cons, h a b hfa]; exact ih.cons₂ a

/-- C4: the emitted program sections are a sublist of `PROGRAM_ORDER`
(hence in enumeration order), every emitted program belongs to the
enumeration, and a program of the enumeration is emitted exactly when it
has surviving rows. -/
theorem sections_follow_program_order (data : List SRow) :
    ((sections data).map (fun sec => sec.program)).Sublist PROGRAM_ORDER ∧
    (∀ sec ∈ sections data, sec.program ∈ PROGRAM_ORDER) ∧
    (∀ p ∈ PROGRAM_ORDER,
      (p ∈ (sections data).map (fun sec => sec.program) ↔
        (survivors data).filter (fun r => decide (r.program_category = some p)) ≠ [])) := by
  have hsub : ((sections data).map (fun sec => sec.program)).Sublist PROGRAM_ORDER := by
    apply map_filterMap_sublist
    intro a b hab
    by_cases he : ((survivors data).filter
        (fun r => decide (r.program_category = some a))).isEmpty
    · rw [if_pos he] at hab
      cases hab
    · rw [if_neg he] at hab
      obtain rfl := Option.some.inj hab
      rfl
  refine ⟨hsub, fun sec hsec => ?_, fun p hp => ?_⟩
  · exact hsub.subset (List.mem_map_of_mem _ hsec)
  · constructor
    · intro hmem
      obtain ⟨sec, hsec, hps⟩ := List.mem_map.mp hmem
      simp only [sections, sectionsOf, List.mem_filterMap] at hsec
      obtain ⟨q, -, hfq⟩ := hsec
      by_cases he : ((survivors data).filter
          (fun r => decide (r.program_category = some q))).isEmpty
      · rw [if_pos he] at hfq
        cases hfq
      · rw [if_neg he] at hfq
        obtain rfl := Option.some.inj hfq
        have hqp : q = p := hps
        subst hqp
        intro hnil
        exact he (List.isEmpty_iff.mpr hnil)
    · intro hne
      have hne' : ¬ ((survivors data).filter
          (fun r => decide (r.program_category = some p))).isEmpty = true :=
        fun h => hne (List.isEmpty_iff.mp h)
      apply List.mem_map.mpr
      refine ⟨⟨p, displayName p,
        (uniqueFirst (((survivors data).filter
            (fun r => decide (r.program_category = some p))).map
          (fun r => r.default_channel))).map
          (fun ch => ⟨ch, channelRows ((survivors data).filter
            (fun r => decide (r.program_category = some p))) ch⟩)⟩, ?_, rfl⟩
      simp only [sections, sectionsOf, List.mem_filterMap]
      exact ⟨p, hp, by rw [if_neg hne']⟩

/-- Witness for C4 at a concrete input. -/
theorem sections_follow_program_order_witness :
    secA ∈ sections [srowA] ∧ secA.program ∈ PROGRAM_ORDER :=
  ⟨by decide, (sections_follow_program_order [srowA]).2.1 secA (by decide)⟩

/-! ## C9: rows present only in the year-over-year table never reach the report -/

theorem outerMerge_cases {s : SRow} {mom_data : List MomRow} {yoy_data : List YoyRow}
    (h : s ∈ outerMerge mom_data yoy_data) :
    (∃ m ∈ mom_data, s.program_category = some m.program_category ∧
      s.default_channel = m.default_channel ∧ s.Landing_page = m.Landing_page ∧
      s.Session_mom = some m.Session) ∨
    ∃ y ∈ yoy_data, s = SRow.ofYoy y := by
  rcases List.mem_append.mp h with hl | hr
  · left
    obtain ⟨m, hm, hs⟩ := List.mem_flatMap.mp hl
    refine ⟨m, hm, ?_⟩
    rcases hfil : yoy_data.filter (fun y => decide (y.key = m.key)) with - | ⟨y, ys⟩
    · rw [hfil] at hs
      simp only [List.mem_singleton] at hs
      subst hs
      exact ⟨rfl, rfl, rfl, rfl⟩
    · rw [hfil] at hs
      obtain ⟨y', -, rfl⟩ := List.mem_map.mp hs
      exact ⟨rfl, rfl, rfl, rfl⟩
  · right
    obtain ⟨y, hy, rfl⟩ := List.mem_map.mp hr
    exact ⟨y, (List.mem_filter.mp hy).1, rfl⟩

/-- C9: a (program, channel, landing page) triple carried by no
month-over-month row never produces a report row: its month-over-month
sessions are zero-filled, failing the `Session_mom > 20` filter. -/
theorem yoy_only_rows_never_reported (mom_data : List MomRow) (yoy_data : List YoyRow)
    (t : String × String × String) (hm : ∀ m ∈ mom_data, m.key ≠ t) :
    ∀ r ∈ emittedRows (summarize_data mom_data yoy_data),
      ¬ (r.program_category = some t.1 ∧ r.default_channel = t.2.1 ∧
        r.Landing_page = t.2.2) := by
  rintro r hr ⟨hp, hc, hpg⟩
  obtain ⟨r0, h0, hlp, rfl⟩ := mem_survivors_iff.mp (emitted_subset_survivors hr)
  obtain ⟨s, hs, rfl⟩ := mem_summarize_iff.mp h0
  have hps : s.program_category = some t.1 := by
    cases hq : s.program_category with
    | none => simp [catRow, catProgram, fillna, hq] at hp
    | some q =>
      by_cases hmem : q ∈ PROGRAM_ORDER
      · simpa [catRow, catProgram, fillna, hq, hmem] using hp
      · simp [catRow, catProgram, fillna, hq, hmem] at hp
  have hcs : s.default_channel = t.2.1 := hc
  have hpgs : s.Landing_page = t.2.2 := hpg
  rcases outerMerge_cases hs with ⟨m, hmm, h1, h2, h3, -⟩ | ⟨y, -, rfl⟩
  · apply hm m hmm
    have e1 : m.program_category = t.1 := Option.some.inj (h1.symm.trans hps)
    have e2 : m.default_channel = t.2.1 := h2.symm.trans hcs
    have e3 : m.Landing_page = t.2.2 := h3.symm.trans hpgs
    rw [MomRow.key, e1, e2, e3]
  · rw [lowPass] at hlp
    have : (catRow (fillna (SRow.ofYoy y))).Session_mom = some 0 := by
      simp [catRow, fillna, SRow.ofYoy]
    rw [this] at hlp
    exact absurd (of_decide_eq_true hlp) (by norm_num)

/-- Witness for C9 at a concrete input. -/
theorem yoy_only_rows_never_reported_witness :
    (∀ m ∈ [momA], m.key ≠ ("MED", "Paid Social", "/med")) ∧
      srowM ∈ emittedRows (summarize_data [momA] [yoyC]) ∧
      ¬ (srowM.program_category = some "MED" ∧ srowM.default_channel = "Paid Social" ∧
        srowM.Landing_page = "/med") :=
  ⟨by decide, by decide,
    yoy_only_rows_never_reported [momA] [yoyC] ("MED", "Paid Social", "/med")
      (by decide) srowM (by decide)⟩

/-! ## C1: the Top-N Ranker -/

theorem append_diff_self_left {α : Type} [DecidableEq α] :
    ∀ l₁ l₂ : List α, (l₁ ++ l₂).diff l₁ = l₂
  | [], l₂ => by simp
  | a :: t, l₂ => by
    rw [List.cons_append, List.diff_cons, List.erase_cons_head]
    exact append_diff_self_left t l₂

theorem key_of_mem_nlargest {α κ : Type} [DecidableEq κ] (key : α → κ)
    {metric : α → ℚ} {n : ℕ} {g : κ} {xs : List α} {r : α}
    (h : r ∈ nlargest n metric (xs.filter (fun x => decide (key x = g)))) :
    key r = g := by
  have h1 := List.take_subset _ _ h
  have h2 := (List.mem_insertionSort (metricGE metric)).mp h1
  exact of_decide_eq_true (List.mem_filter.mp h2).2

theorem nlargest_spec {α : Type} [DecidableEq α] (metric : α → ℚ) (n : ℕ) (l : List α) :
    (nlargest n metric l).length = min n l.length ∧
    (nlargest n metric l).Subperm l ∧
    ∀ b ∈ l.diff (nlargest n metric l), ∀ a ∈ nlargest n metric l,
      metric b ≤ metric a := by
  have hperm : List.Perm (List.insertionSort (metricGE metric) l) l :=
    List.perm_insertionSort _ _
  refine ⟨?_, ?_, ?_⟩
  · rw [nlargest, List.length_take, hperm.length_eq]
  · exact (List.take_sublist _ _).subperm.trans hperm.subperm
  · intro b hb a ha
    have hdp : List.Perm (l.diff (nlargest n metric l))
        ((List.insertionSort (metricGE metric) l).diff (nlargest n metric l)) :=
      List.Perm.diff_right _ hperm.symm
    have hd := append_diff_self_left ((List.insertionSort (metricGE metric) l).take n)
      ((List.insertionSort (metricGE metric) l).drop n)
    rw [List.take_append_drop] at hd
    have hb' : b ∈ (List.insertionSort (metricGE metric) l).drop n := by
      rw [nlargest] at hdp
      exact hd ▸ hdp.mem_iff.mp hb
    have hsorted : (List.insertionSort (metricGE metric) l).Pairwise (metricGE metric) :=
      List.sorted_insertionSort _ _
    rw [← List.take_append_drop n (List.insertionSort (metricGE metric) l)] at hsorted
    exact (List.pairwise_append.mp hsorted).2.2 a ha b hb'

theorem filter_flatMap_blocks {α κ : Type} [DecidableEq κ]
    (f : κ → List α) (key : α → κ) (g : κ) :
    ∀ ks : List κ, ks.Nodup → (∀ g' r, r ∈ f g' → key r = g') →
      (ks.flatMap f).filter (fun r => decide (key r = g)) =
        if g ∈ ks then f g else [] := by
  intro ks
  induction ks with
  | nil => simp
  | cons k tl ih =>
    intro hnd hf
    rw [List.flatMap_cons, List.filter_append]
    rcases eq_or_ne g k with rfl | hgk
    · have h1 : (f g).filter (fun r => decide (key r = g)) = f g :=
        List.filter_eq_self.mpr (fun r hr => by simp [hf g r hr])
      have h2 : (tl.flatMap f).filter (fun r => decide (key r = g)) = [] := by
        rw [ih (List.nodup_cons.mp hnd).2 hf, if_neg (List.nodup_cons.mp hnd).1]
      simp [h1, h2]
    · have h1 : (f k).filter (fun r => decide (key r = g)) = [] :=
        List.filter_eq_nil_iff.mpr (fun r hr => by
          simp only [hf k r hr, decide_eq_true_eq]
          exact fun hkg => hgk hkg.symm)
      rw [h1, ih (List.nodup_cons.mp hnd).2 hf, List.nil_append]
      simp [List.mem_cons, hgk]

/-- C1: for every table, grouping key, metric and bound `top_n`, the rows
of `get_top_pages` carrying a given key value `g` are exactly
`nlargest top_n` of the group of `g` — `min top_n (group size)` rows
(all of a small group), drawn from the group, every selected row's metric
at least every unselected one's, selected in stable descending metric
order. -/
theorem get_top_pages_spec {α κ : Type} [LinearOrder κ] [DecidableEq α]
    (key : α → κ) (metric : α → ℚ) (top_n : ℕ) (xs : List α) (g : κ) :
    ((get_top_pages key metric top_n xs).filter (fun r => decide (key r = g))).length
        = min top_n (xs.filter (fun r => decide (key r = g))).length ∧
    (get_top_pages key metric top_n xs).filter (fun r => decide (key r = g))
        = nlargest top_n metric (xs.filter (fun r => decide (key r = g))) ∧
    ((get_top_pages key metric top_n xs).filter (fun r => decide (key r = g))).Subperm
        (xs.filter (fun r => decide (key r = g))) ∧
    ∀ b ∈ (xs.filter (fun r => decide (key r = g))).diff
        ((get_top_pages key metric top_n xs).filter (fun r => decide (key r = g))),
      ∀ a ∈ (get_top_pages key metric top_n xs).filter (fun r => decide (key r = g)),
        metric b ≤ metric a := by
  have hks : (List.insertionSort (fun a b => a ≤ b) ((xs.map key).dedup)).Nodup :=
    ((List.perm_insertionSort _ _).nodup_iff).mpr (List.nodup_dedup _)
  have hres : (get_top_pages key metric top_n xs).filter (fun r => decide (key r = g)) =
      if g ∈ List.insertionSort (fun a b => a ≤ b) ((xs.map key).dedup) then
        nlargest top_n metric (xs.filter (fun r => decide (key r = g)))
      else [] := by
    rw [get_top_pages]
    exact filter_flatMap_blocks _ key g _ hks (fun g' r hr => key_of_mem_nlargest key hr)
  by_cases hg : g ∈ List.insertionSort (fun a b => a ≤ b) ((xs.map key).dedup)
  · rw [hres, if_pos hg]
    obtain ⟨hlen, hsp, hlarge⟩ :=
      nlargest_spec metric top_n (xs.filter (fun r => decide (key r = g)))
    exact ⟨hlen, rfl, hsp, hlarge⟩
  · rw [hres, if_neg hg]
    have hG : xs.filter (fun r => decide (key r = g)) = [] := by
      apply List.filter_eq_nil_iff.mpr
      intro r hr hkr
      exact hg ((List.mem_insertionSort _).mpr
        (List.mem_dedup.mpr (List.mem_map.mpr ⟨r, hr, of_decide_eq_true hkr⟩)))
    rw [hG]
    simp [nlargest]

/-- Witness for C1 at a concrete input, exercising the
largest-rows-selected conjunct. -/
theorem get_top_pages_spec_witness :
    ((0, 5) : ℕ × ℚ) ∈ (pairsX.filter (fun r => decide (r.1 = 0))).diff
        ((get_top_pages Prod.fst Prod.snd 1 pairsX).filter (fun r => decide (r.1 = 0))) ∧
      ((0, 7) : ℕ × ℚ) ∈
        (get_top_pages Prod.fst Prod.snd 1 pairsX).filter (fun r => decide (r.1 = 0)) ∧
      (((0, 5) : ℕ × ℚ)).2 ≤ (((0, 7) : ℕ × ℚ)).2 :=
  ⟨by decide, by decide,
    (get_top_pages_spec Prod.fst Prod.snd 1 pairsX 0).2.2.2 (0, 5) (by decide)
      (0, 7) (by decide)⟩

/-! ## C8: the outer join is total -/

theorem filter_key_cases {α β : Type} [DecidableEq β] (f : α → β) :
    ∀ l : List α, (l.map f).Nodup → ∀ k : β,
      l.filter (fun x => decide (f x = k)) = [] ∨
        ∃ x, f x = k ∧ l.filter (fun x => decide (f x = k)) = [x] := by
  intro l
  induction l with
  | nil => exact fun _ _ => Or.inl rfl
  | cons a t ih =>
    intro hnd k
    rw [List.map_cons, List.nodup_cons] at hnd
    by_cases hak : f a = k
    · right
      refine ⟨a, hak, ?_⟩
      rw [List.filter_cons_of_pos (by simp [hak])]
      have ht : t.filter (fun x => decide (f x = k)) = [] := by
        apply List.filter_eq_nil_iff.mpr
        intro x hx hfx
        exact hnd.1 (hak ▸ of_decide_eq_true hfx ▸ List.mem_map_of_mem f hx)
      rw [ht]
    · rw [List.filter_cons_of_neg (by simp [hak])]
      exact ih hnd.2 k

theorem countP_key_eq {α β : Type} [DecidableEq β] (f : α → β) :
    ∀ l : List α, (l.map f).Nodup → ∀ k : β,
      l.countP (fun a => decide (f a = k)) = if k ∈ l.map f then 1 else 0 := by
  intro l
  induction l with
  | nil => simp
  | cons a t ih =>
    intro hnd k
    rw [List.map_cons, List.nodup_cons] at hnd
    rw [List.countP_cons, ih hnd.2 k]
    by_cases hak : f a = k
    · have hkt : k ∉ t.map f := fun hk => hnd.1 (hak ▸ hk)
      simp [hak, hkt]
    · have : ¬ (k = f a) := fun h => hak h.symm
      simp [List.mem_cons, hak, this]

theorem countP_self_eq_one {α : Type} [DecidableEq α] :
    ∀ l : List α, l.Nodup → ∀ x ∈ l, l.countP (fun a => decide (a = x)) = 1 := by
  intro l
  induction l with
  | nil => simp
  | cons a t ih =>
    intro hnd x hx
    rw [List.nodup_cons] at hnd
    rw [List.countP_cons]
    rcases List.mem_cons.mp hx with rfl | hxt
    · have ht : t.countP (fun a => decide (a = x)) = 0 :=
        List.countP_eq_zero.mpr (fun b hb hbx => hnd.1 (of_decide_eq_true hbx ▸ hb))
      simp [ht]
    · have hax : ¬ (a = x) := fun h => hnd.1 (h ▸ hxt)
      rw [ih hnd.2 x hxt]
      simp [hax]

theorem momSide_mergedOf {yoy_data : List YoyRow} (m : MomRow) :
    momSide (mergedOf yoy_data m) = some m := by
  rcases hfil : yoy_data.filter (fun y => decide (y.key = m.key)) with - | ⟨y, ys⟩ <;>
    simp [mergedOf, hfil, momSide, SRow.ofMom, SRow.ofBoth]

theorem momSide_ofYoy (y : YoyRow) : momSide (SRow.ofYoy y) = none := by
  simp [momSide, SRow.ofYoy]

theorem yoySide_ofMom (m : MomRow) : yoySide (SRow.ofMom m) = none := by
  simp [yoySide, SRow.ofMom]

theorem yoySide_ofYoy (y : YoyRow) : yoySide (SRow.ofYoy y) = some y := by
  simp [yoySide, SRow.ofYoy]

theorem yoySide_ofBoth {m : MomRow} {y : YoyRow} (hk : y.key = m.key) :
    yoySide (SRow.ofBoth m y) = some y := by
  obtain ⟨e1, e2, e3⟩ : y.program_category = m.program_category ∧
      y.default_channel = m.default_channel ∧ y.Landing_page = m.Landing_page := by
    rw [YoyRow.key, MomRow.key, Prod.mk.injEq, Prod.mk.injEq] at hk
    exact ⟨hk.1, hk.2.1, hk.2.2⟩
  cases y
  simp_all [yoySide, SRow.ofBoth]

theorem outerMerge_left_eq (mom_data : List MomRow) (yoy_data : List YoyRow)
    (hy : (yoy_data.map YoyRow.key).Nodup) :
    (mom_data.flatMap (fun m =>
      match yoy_data.filter (fun y => decide (y.key = m.key)) with
      | [] => [SRow.ofMom m]
      | ys => ys.map (fun y => SRow.ofBoth m y))) =
      mom_data.map (mergedOf yoy_data) := by
  induction mom_data with
  | nil => rfl
  | cons m t ih =>
    rw [List.flatMap_cons, List.map_cons, ih]
    rcases filter_key_cases YoyRow.key yoy_data hy m.key with hfil | ⟨y, -, hfil⟩ <;>
      simp [mergedOf, hfil]

theorem yoySide_mergedOf_iff {yoy_data : List YoyRow} (hy : (yoy_data.map YoyRow.key).Nodup)
    {y : YoyRow} (hymem : y ∈ yoy_data) (m : MomRow) :
    yoySide (mergedOf yoy_data m) = some y ↔ y.key = m.key := by
  constructor
  · intro h
    rcases hfil : yoy_data.filter (fun y' => decide (y'.key = m.key)) with - | ⟨y', ys⟩
    · rw [mergedOf, hfil] at h
      simp [yoySide_ofMom] at h
    · rw [mergedOf, hfil] at h
      have hy' : y' ∈ yoy_data.filter (fun y' => decide (y'.key = m.key)) := by
        rw [hfil]; exact List.mem_cons_self _ _
      have hky' : y'.key = m.key := of_decide_eq_true (List.mem_filter.mp hy').2
      rw [yoySide_ofBoth hky'] at h
      exact Option.some.inj h ▸ hky'
  · intro hk
    have hyfil : y ∈ yoy_data.filter (fun y' => decide (y'.key = m.key)) :=
      List.mem_filter.mpr ⟨hymem, decide_eq_true hk⟩
    rcases filter_key_cases YoyRow.key yoy_data hy m.key with hfil | ⟨x, -, hfil⟩
    · rw [hfil] at hyfil
      cases hyfil
    · rw [hfil] at hyfil
      obtain rfl := List.mem_singleton.mp hyfil
      rw [mergedOf, hfil, yoySide_ofBoth hk]

/-- C8: when join keys are unique in each ranked table, every row of
either table appears in exactly one summary row of the outer join, and a
month-over-month row with a matching year-over-year partner is merged
with it in a single row. -/
theorem outer_join_total (mom_data : List MomRow) (yoy_data : List YoyRow)
    (hm : (mom_data.map MomRow.key).Nodup) (hy : (yoy_data.map YoyRow.key).Nodup) :
    (∀ m ∈ mom_data,
      (outerMerge mom_data yoy_data).countP (fun s => decide (momSide s = some m)) = 1) ∧
    (∀ y ∈ yoy_data,
      (outerMerge mom_data yoy_data).countP (fun s => decide (yoySide s = some y)) = 1) ∧
    (∀ m ∈ mom_data, ∀ y ∈ yoy_data, y.key = m.key →
      ∃ s ∈ outerMerge mom_data yoy_data, momSide s = some m ∧ yoySide s = some y) := by
  refine ⟨?_, ?_, ?_⟩
  · intro m hmem
    rw [outerMerge, outerMerge_left_eq mom_data yoy_data hy, List.countP_append,
      List.countP_map, List.countP_map]
    have h1 : mom_data.countP
        ((fun s => decide (momSide s = some m)) ∘ mergedOf yoy_data) = 1 := by
      have hc : mom_data.countP
          ((fun s => decide (momSide s = some m)) ∘ mergedOf yoy_data) =
          mom_data.countP (fun m' => decide (m' = m)) :=
        List.countP_congr (fun m' _ => by simp [momSide_mergedOf])
      rw [hc]
      exact countP_self_eq_one mom_data (hm.of_map) m hmem
    have h2 : (yoy_data.filter (fun y =>
        decide (¬ mom_data.any (fun m' => decide (m'.key = y.key))))).countP
        ((fun s => decide (momSide s = some m)) ∘ SRow.ofYoy) = 0 :=
      List.countP_eq_zero.mpr (fun y _ => by simp [momSide_ofYoy])
    rw [h1, h2]
  · intro y hymem
    rw [outerMerge, outerMerge_left_eq mom_data yoy_data hy, List.countP_append,
      List.countP_map, List.countP_map]
    have hcongr : mom_data.countP
        ((fun s => decide (yoySide s = some y)) ∘ mergedOf yoy_data) =
        mom_data.countP (fun m' => decide (m'.key = y.key)) :=
      List.countP_congr (fun m' _ => by
        simp only [Function.comp_apply, decide_eq_true_eq]
        rw [yoySide_mergedOf_iff hy hymem m']
        exact ⟨fun h => h ▸ rfl, fun h => h.symm ▸ rfl⟩)
    by_cases hmatch : y.key ∈ mom_data.map MomRow.key
    · have h1 : mom_data.countP (fun m' => decide (m'.key = y.key)) = 1 := by
        rw [countP_key_eq MomRow.key mom_data hm y.key, if_pos hmatch]
      have h2 : (yoy_data.filter (fun y' =>
          decide (¬ mom_data.any (fun m' => decide (m'.key = y'.key))))).countP
          ((fun s => decide (yoySide s = some y)) ∘ SRow.ofYoy) = 0 := by
        apply List.countP_eq_zero.mpr
        intro y' hy'
        simp only [Function.comp_apply, yoySide_ofYoy, decide_eq_true_eq,
          Option.some.injEq]
        rintro rfl
        have := of_decide_eq_true (List.mem_filter.mp hy').2
        obtain ⟨m', hm', hkm⟩ := List.mem_map.mp hmatch
        exact this (List.any_eq_true.mpr ⟨m', hm', decide_eq_true hkm⟩)
      rw [hcongr, h1, h2]
    · have h1 : mom_data.countP (fun m' => decide (m'.key = y.key)) = 0 := by
        rw [countP_key_eq MomRow.key mom_data hm y.key, if_neg hmatch]
      have hyfil : y ∈ yoy_data.filter (fun y' =>
          decide (¬ mom_data.any (fun m' => decide (m'.key = y'.key)))) := by
        refine List.mem_filter.mpr ⟨hymem, decide_eq_true (fun hany => ?_)⟩
        obtain ⟨m', hm', hkm⟩ := List.any_eq_true.mp hany
        exact hmatch (List.mem_map.mpr ⟨m', hm', of_decide_eq_true hkm⟩)
      have h2 : (yoy_data.filter (fun y' =>
          decide (¬ mom_data.any (fun m' => decide (m'.key = y'.key))))).countP
          ((fun s => decide (yoySide s = some y)) ∘ SRow.ofYoy) = 1 := by
        have hc : (yoy_data.filter (fun y' =>
            decide (¬ mom_data.any (fun m' => decide (m'.key = y'.key))))).countP
            ((fun s => decide (yoySide s = some y)) ∘ SRow.ofYoy) =
            (yoy_data.filter (fun y' =>
              decide (¬ mom_data.any (fun m' => decide (m'.key = y'.key))))).countP
            (fun y' => decide (y' = y)) :=
          List.countP_congr (fun y' _ => by simp [yoySide_ofYoy])
        rw [hc]
        exact countP_self_eq_one _ ((hy.of_map).filter _) y hyfil
      rw [hcongr, h1, h2]
  · intro m hmm y hyy hkey
    have hyfil : y ∈ yoy_data.filter (fun y' => decide (y'.key = m.key)) :=
      List.mem_filter.mpr ⟨hyy, decide_eq_true hkey⟩
    rcases filter_key_cases YoyRow.key yoy_data hy m.key with hfil | ⟨x, -, hfil⟩
    · rw [hfil] at hyfil
      cases hyfil
    · rw [hfil] at hyfil
      obtain rfl := List.mem_singleton.mp hyfil
      refine ⟨mergedOf yoy_data m, ?_, momSide_mergedOf m, ?_⟩
      · rw [outerMerge, outerMerge_left_eq mom_data yoy_data hy]
        exact List.mem_append_left _ (List.mem_map_of_mem _ hmm)
      · rw [mergedOf, hfil, yoySide_ofBoth hkey]

/-- Witness for C8 at a concrete input. -/
theorem outer_join_total_witness :
    ([momA].map MomRow.key).Nodup ∧ ([yoyA].map YoyRow.key).Nodup ∧
      (outerMerge [momA] [yoyA]).countP (fun s => decide (momSide s = some momA)) = 1 :=
  ⟨by decide, by decide,
    (outer_join_total [momA] [yoyA] (by decide) (by decide)).1 momA (by decide)⟩

/-! ## C10: the report writer does not mutate the caller's table -/

theorem store_alloc_snd (s : Store) (t : List SRow) : (s.alloc t).2 = s.tables.length :=
  rfl

theorem store_length_alloc (s : Store) (t : List SRow) :
    (s.alloc t).1.tables.length = s.tables.length + 1 := by
  simp [Store.alloc]

theorem store_length_write (s : Store) (t : List SRow) (i : ℕ) :
    (s.write i t).tables.length = s.tables.length := by
  simp [Store.write]

theorem store_read_alloc_old (s : Store) (t : List SRow) {j : ℕ}
    (hj : j < s.tables.length) : (s.alloc t).1.read j = s.read j := by
  simp only [Store.alloc, Store.read, List.getD_eq_getElem?_getD]
  rw [List.getElem?_append_left hj]

theorem store_read_alloc_new (s : Store) (t : List SRow) :
    (s.alloc t).1.read (s.alloc t).2 = t := by
  simp only [Store.alloc, Store.read, List.getD_eq_getElem?_getD]
  rw [List.getElem?_append_right (le_refl _)]
  simp

theorem store_read_write_ne (s : Store) (t : List SRow) {i j : ℕ} (h : i ≠ j) :
    (s.write i t).read j = s.read j := by
  simp only [Store.write, Store.read, List.getD_eq_getElem?_getD]
  rw [List.getElem?_set_ne h]

theorem store_read_write_self (s : Store) (t : List SRow) {i : ℕ}
    (h : i < s.tables.length) : (s.write i t).read i = t := by
  simp only [Store.write, Store.read, List.getD_eq_getElem?_getD]
  rw [List.getElem?_set_self h]
  rfl

/-- C10: running the report writer leaves every previously allocated
frame — in particular the caller's input table — unchanged, because the
low-traffic filter copies into a fresh frame and the in-place categorical
conversion hits only that copy; and the report it produces is the pure
`generate_markdown` of the input table. -/
theorem generate_markdown_st_frame (s : Store) (i j : ℕ) (hj : j < s.tables.length) :
    (generate_markdown_st s i).1.read j = s.read j ∧
    (generate_markdown_st s i).2 = generate_markdown (s.read i) := by
  constructor
  · simp only [generate_markdown_st, sort_by_program_order_st]
    rw [store_read_alloc_old _ _ (by rw [store_length_write, store_length_alloc]; omega)]
    rw [store_read_write_ne _ _ (by rw [store_alloc_snd]; omega)]
    rw [store_read_alloc_old _ _ hj]
  · simp only [generate_markdown_st, sort_by_program_order_st]
    rw [store_read_alloc_new]
    rw [store_read_write_self _ _ (by rw [store_alloc_snd, store_length_alloc]; omega)]
    rw [store_read_alloc_new]
    rfl

/-- Witness for C10 at a concrete input. -/
theorem generate_markdown_st_frame_witness :
    0 < storeA.tables.length ∧
      (generate_markdown_st storeA 0).1.read 0 = storeA.read 0 :=
  ⟨by decide, (generate_markdown_st_frame storeA 0 0 (by decide)).1⟩

end LandingPage
